import Mathlib

/-!
Verification development for the `agenda` calendar program.

The program ingests iCalendar files and answers "which event occurrences
fall within a given time window".  The Lean definitions below are a shallow
embedding of the Rust sources:

* `src/ics.rs` — `parse_datetime`, `reconstruct_datetime`, `get_tz`, `parse_ics`;
* `src/event.rs` — `Event`, `Event::default`, `Event::duration`, the `Ord`
  and `PartialEq` instances;
* `src/main.rs` — the window-selection core of `load_upcoming_events`;
* `src/moment.rs` — the `Moment` type and its `Ord` instance (an older
  iteration of the instant model, still present in the tree).

Timestamps are modelled as `Int` seconds since the Unix epoch (the value a
`chrono::DateTime<Utc>` denotes).  The proleptic-Gregorian conversions that
`chrono` performs internally are modelled by `daysFromCivil`/`civilFromDays`
(the standard civil-calendar arithmetic); timezones are modelled by an
explicit offset function plus the finite set of offsets the zone uses, and
the timezone database that `chrono_tz` embeds is a lookup parameter.
Process aborts (`unwrap` on `None`/`Err`/ambiguous local times) are modelled
by the `Res.panic` result, distinct from the recoverable `Res.err`.
-/

/-! ## Civil-calendar arithmetic (model of chrono's Gregorian conversions) -/

/-- Gregorian leap-year test (`chrono`'s calendar). -/
def isLeapYear (y : Int) : Bool := (y % 4 == 0 && y % 100 != 0) || y % 400 == 0

/-- Number of days in a month of the proleptic Gregorian calendar. -/
def daysInMonth (y m : Int) : Int :=
  if m = 2 then (if isLeapYear y then 29 else 28)
  else if m = 4 ∨ m = 6 ∨ m = 9 ∨ m = 11 then 30
  else 31

/-- Days since 1970-01-01 of a civil date (Howard Hinnant's `days_from_civil`,
the arithmetic `chrono` implements). -/
def daysFromCivil (y m d : Int) : Int :=
  let y' := if m ≤ 2 then y - 1 else y
  let era := y' / 400
  let yoe := y' - era * 400
  let mp := if m ≤ 2 then m + 9 else m - 3
  let doy := (153 * mp + 2) / 5 + d - 1
  let doe := yoe * 365 + yoe / 4 - yoe / 100 + doy
  era * 146097 + doe - 719468

/-- Day-of-era at which year-of-era `yoe` starts. -/
def yearStartOfEra (yoe : Int) : Int := 365 * yoe + yoe / 4 - yoe / 100

/-- Year-of-era containing day-of-era `doe`: a first estimate `doe / 366`
corrected upward (at most twice) while the next year still starts on or
before `doe`. -/
def yoeOfDoe (doe : Int) : Int :=
  let y0 := doe / 366
  let y1 := if y0 + 1 ≤ 399 ∧ yearStartOfEra (y0 + 1) ≤ doe then y0 + 1 else y0
  if y1 + 1 ≤ 399 ∧ yearStartOfEra (y1 + 1) ≤ doe then y1 + 1 else y1

/-- Civil date `(year, month, day)` of a day count since 1970-01-01
(inverse of `daysFromCivil`). -/
def civilFromDays (z : Int) : Int × Int × Int :=
  let n := z + 719468
  let era := n / 146097
  let doe := n - era * 146097
  let yoe := yoeOfDoe doe
  let doy := doe - yearStartOfEra yoe
  let mp := (5 * doy + 2) / 153
  let d := doy - (153 * mp + 2) / 5 + 1
  let m := if mp < 10 then mp + 3 else mp - 9
  (if m ≤ 2 then yoe + era * 400 + 1 else yoe + era * 400, m, d)

/-- Civil date-time record: year, month, day, hour, minute, second. -/
structure Civil where
  y : Int
  m : Int
  d : Int
  hh : Int
  mi : Int
  ss : Int
deriving DecidableEq, Repr

/-- Epoch seconds of a civil date-time. -/
def secsFromCivil (y m d hh mi ss : Int) : Int :=
  daysFromCivil y m d * 86400 + hh * 3600 + mi * 60 + ss

/-- Civil date-time of an epoch-second count. -/
def civilFromSecs (t : Int) : Civil :=
  let z := t / 86400
  let sod := t - z * 86400
  let c := civilFromDays z
  ⟨c.1, c.2.1, c.2.2, sod / 3600, sod % 3600 / 60, sod % 60⟩

/-! ## Digit strings (model of chrono's fixed-width numeric fields) -/

/-- Decimal digit character of `n % 10`. -/
def digitOf (n : Int) : Char :=
  match (n % 10).toNat with
  | 0 => '0' | 1 => '1' | 2 => '2' | 3 => '3' | 4 => '4'
  | 5 => '5' | 6 => '6' | 7 => '7' | 8 => '8' | _ => '9'

/-- Numeric value of a decimal digit character (code points 48–57), `none`
for anything else. -/
def digitVal (c : Char) : Option Int :=
  if 48 ≤ c.toNat ∧ c.toNat ≤ 57 then some ((c.toNat : Int) - 48) else none

/-- Two-digit zero-padded rendering (chrono's `%m`, `%d`, `%H`, `%M`, `%S`). -/
def fmt2 (n : Int) : List Char := [digitOf (n / 10), digitOf n]

/-- Four-digit zero-padded rendering (chrono's `%Y` in the range 0–9999). -/
def fmt4 (n : Int) : List Char :=
  [digitOf (n / 1000), digitOf (n / 100), digitOf (n / 10), digitOf n]

/-- Read a two-digit field; `none` unless the next two characters are digits. -/
def read2 (cs : List Char) : Option (Int × List Char) :=
  match cs with
  | a :: b :: rest =>
    match digitVal a, digitVal b with
    | some x, some y => some (10 * x + y, rest)
    | _, _ => none
  | _ => none

/-- Read a four-digit field; `none` unless the next four characters are digits. -/
def read4 (cs : List Char) : Option (Int × List Char) :=
  match cs with
  | a :: b :: c :: d :: rest =>
    match digitVal a, digitVal b, digitVal c, digitVal d with
    | some x, some y, some z, some w => some (1000 * x + 100 * y + 10 * z + w, rest)
    | _, _, _, _ => none
  | _ => none

/-- Calendar validity of a civil date-time, as chrono checks it when parsing. -/
def validCivil (y m d hh mi ss : Int) : Prop :=
  1 ≤ m ∧ m ≤ 12 ∧ 1 ≤ d ∧ d ≤ daysInMonth y m ∧
    0 ≤ hh ∧ hh ≤ 23 ∧ 0 ≤ mi ∧ mi ≤ 59 ∧ 0 ≤ ss ∧ ss ≤ 59

instance (y m d hh mi ss : Int) : Decidable (validCivil y m d hh mi ss) := by
  unfold validCivil
  infer_instance

/-- Model of `NaiveDateTime::parse_from_str` with format `%Y%m%dT%H%M%S`
(`utcSuffix = false`) or `%Y%m%dT%H%M%SZ` (`utcSuffix = true`): fixed-width
digit fields, the literal `T` (and trailing `Z`), no leftover input, and a
calendar-validity check. -/
def parseYmdHms (cs : List Char) (utcSuffix : Bool) : Option Civil :=
  (read4 cs).bind fun p1 =>
  (read2 p1.2).bind fun p2 =>
  (read2 p2.2).bind fun p3 =>
  match p3.2 with
  | t :: cs4 =>
    if t = 'T' then
      (read2 cs4).bind fun p4 =>
      (read2 p4.2).bind fun p5 =>
      (read2 p5.2).bind fun p6 =>
      if (if utcSuffix then p6.2 = ['Z'] else p6.2 = ([] : List Char)) ∧
          validCivil p1.1 p2.1 p3.1 p4.1 p5.1 p6.1 then
        some ⟨p1.1, p2.1, p3.1, p4.1, p5.1, p6.1⟩
      else none
    else none
  | [] => none

/-- Rendering of a civil date-time as `YYYYMMDDTHHMMSS` (chrono's
`%Y%m%dT%H%M%S`). -/
def fmtYmdHms (c : Civil) : List Char :=
  fmt4 c.y ++ fmt2 c.m ++ fmt2 c.d ++ 'T' :: (fmt2 c.hh ++ fmt2 c.mi ++ fmt2 c.ss)

/-- Rendering of a civil date as `YYYYMMDD` (chrono's `%Y%m%d`). -/
def fmtYmd (y m d : Int) : List Char := fmt4 y ++ fmt2 m ++ fmt2 d

/-! ## Timezone model

A `chrono_tz::Tz` value is modelled by the zone's name, its offset (seconds
east of UTC) as a function of the UTC instant, and the finite set of offsets
the zone ever uses.  Conversion of a local wall-clock time to UTC
(`TimeZone::from_local_datetime`, a `LocalResult`) is the list of UTC
instants that render back to that wall-clock time: one element is chrono's
`Single`, several is `Ambiguous`, none is `None`. -/

structure Tz where
  name : String
  offAtUtc : Int → Int
  offsets : List Int

/-- Model of `chrono_tz::UTC`. -/
def utcTz : Tz := ⟨"UTC", fun _ => 0, [0]⟩

/-- Day of week of a day count since the epoch, `0` = Sunday
(1970-01-01 was a Thursday). -/
def dowOfDays (z : Int) : Int := (z + 4) % 7

/-- First Sunday on or after day `z`. -/
def firstSundayOnOrAfter (z : Int) : Int := z + (7 - dowOfDays z) % 7

/-- UTC instant at which US daylight saving starts in year `y`
(second Sunday of March, 02:00 EST = 07:00 UTC). -/
def nyDstStartUtc (y : Int) : Int :=
  (firstSundayOnOrAfter (daysFromCivil y 3 1) + 7) * 86400 + 7 * 3600

/-- UTC instant at which US daylight saving ends in year `y`
(first Sunday of November, 02:00 EDT = 06:00 UTC). -/
def nyDstEndUtc (y : Int) : Int :=
  firstSundayOnOrAfter (daysFromCivil y 11 1) * 86400 + 6 * 3600

/-- Offset of America/New_York at a UTC instant: −4 h during daylight
saving, −5 h otherwise (the tz-database rule in force since 2007, the era
the claims exercise). -/
def nyOffAtUtc (u : Int) : Int :=
  let y := (civilFromDays (u / 86400)).1
  if nyDstStartUtc y ≤ u ∧ u < nyDstEndUtc y then -14400 else -18000

/-- Model of `chrono_tz::America::New_York`. -/
def nyTz : Tz := ⟨"America/New_York", nyOffAtUtc, [-14400, -18000]⟩

/-- The fragment of the tz database needed here, as a lookup in the shape of
`str::parse::<Tz>` (the full database is passed as a parameter `db` below). -/
def tzdb (name : String) : Option Tz :=
  if name = "UTC" then some utcTz
  else if name = "America/New_York" then some nyTz
  else none

/-- UTC instants whose rendering in zone `z` is the wall-clock time `loc`
(the candidate list behind chrono's `LocalResult`). -/
def localToUtcCandidates (z : Tz) (loc : Int) : List Int :=
  (z.offsets.filter (fun o => z.offAtUtc (loc - o) = o)).map (fun o => loc - o)

/-! ## Fallible computations

Rust distinguishes recoverable errors (`Result::Err`, propagated by `?`)
from process aborts (`unwrap` of `None`/`Err`/an ambiguous `LocalResult`).
`Res.err` models the former, `Res.panic` the latter. -/

inductive Res (α : Type) where
  | ok : α → Res α
  | err : Res α
  | panic : Res α
deriving DecidableEq, Repr

def Res.bind {α β : Type} : Res α → (α → Res β) → Res β
  | .ok a, f => f a
  | .err, _ => .err
  | .panic, _ => .panic

/-! ## Model of `ics.rs::parse_datetime` -/

/-- Model of the date branch of `parse_datetime`: byte slices
`[0..4]`, `[4..6]`, `[6..8]` each `.parse::<i32>()?`-ed.  Slicing past the
end of the string panics; a non-numeric slice is a recoverable error.
Characters beyond the first eight are ignored.  Slices are evaluated left
to right, so a non-numeric year is reported before a short string panics. -/
def parseDate8 (cs : List Char) : Res (Int × Int × Int) :=
  match cs with
  | c1 :: c2 :: c3 :: c4 :: rest1 =>
    match digitVal c1, digitVal c2, digitVal c3, digitVal c4 with
    | some a, some b, some c, some d =>
      match rest1 with
      | c5 :: c6 :: rest2 =>
        match digitVal c5, digitVal c6 with
        | some e, some f =>
          match rest2 with
          | c7 :: c8 :: _ =>
            match digitVal c7, digitVal c8 with
            | some g, some h =>
              .ok (1000 * a + 100 * b + 10 * c + d, 10 * e + f, 10 * g + h)
            | _, _ => .err
          | _ => .panic
        | _, _ => .err
      | _ => .panic
    | _, _, _, _ => .err
  | _ => .panic

/-- Model of `ics.rs::parse_datetime(datetime, time_zone)`.

`db` models the tz database behind `str::parse::<Tz>`; `localTz` models the
system zone behind `chrono::Local`.  A trailing `Z` forces UTC; otherwise a
supplied zone name is looked up (`unwrap` — unknown names panic) and no name
defaults to UTC.  Text containing `T` goes through
`NaiveDateTime::parse_from_str` then `and_local_timezone(tz).unwrap()`;
text without `T` is sliced as an 8-digit date and resolved at midnight in
the local system zone via `Local.with_ymd_and_hms(..).unwrap()` (invalid
dates and ambiguous midnights panic). -/
def parse_datetimeM (db : String → Option Tz) (localTz : Tz) (s : String)
    (time_zone : Option String) : Res Int :=
  let cs := s.data
  let is_utc : Bool := cs.getLast? == some 'Z'
  let tzRes : Res Tz :=
    if is_utc then .ok utcTz
    else
      match time_zone with
      | some name =>
        match db name with
        | some z => .ok z
        | none => .panic
      | none => .ok utcTz
  Res.bind tzRes fun tz =>
  if cs.contains 'T' then
    match parseYmdHms cs is_utc with
    | none => .err
    | some c =>
      match localToUtcCandidates tz (secsFromCivil c.y c.m c.d c.hh c.mi c.ss) with
      | [u] => .ok u
      | _ => .panic
  else
    Res.bind (parseDate8 cs) fun ymd =>
    if validCivil ymd.1 ymd.2.1 ymd.2.2 0 0 0 then
      match localToUtcCandidates localTz (secsFromCivil ymd.1 ymd.2.1 ymd.2.2 0 0 0) with
      | [u] => .ok u
      | _ => .panic
    else .panic

/-! ## Model of `ics.rs::reconstruct_datetime` -/

/-- Model of `reconstruct_datetime(datetime, time_zone)`: resolve the zone
(`unwrap` — unknown names panic, no name defaults to UTC), render the
instant in that zone, and emit `:YYYYMMDDTHHMMSSZ` for UTC or
`;TZID=<zone>:YYYYMMDDTHHMMSS` otherwise. -/
def reconstruct_datetimeM (db : String → Option Tz) (u : Int)
    (time_zone : Option String) : Res (List Char) :=
  let tzRes : Res Tz :=
    match time_zone with
    | some name =>
      match db name with
      | some z => .ok z
      | none => .panic
    | none => .ok utcTz
  Res.bind tzRes fun tz =>
  let c := civilFromSecs (u + tz.offAtUtc u)
  if tz.name = "UTC" then .ok (':' :: (fmtYmdHms c ++ ['Z']))
  else .ok (';' :: ("TZID=".data ++ tz.name.data ++ ':' :: fmtYmdHms c))

/-! ## Model of `ics.rs::get_tz` and `ics.rs::parse_ics`

A pre-tokenized VEVENT property is a name, an optional value and an
optional parameter bag (the `ical` crate's `Property`).  The `rrule`
crate's `RRuleSet` is modelled as the rule text it was parsed from plus the
exclusion (`exdate`) and addition (`rdate`) instants attached to it; the
crate's grammar acceptance is the parameter `g`.  The parse-level event
mirrors the `Event` struct of the `ics.rs` iteration (string id defaulting
to empty, optional summary/location/description, start/end at the epoch
sentinel `Utc.timestamp(0, 0)`). -/

structure IcsProp where
  name : String
  value : Option String
  params : Option (List (String × List String))

structure RRuleData where
  text : String
  exdates : List Int
  rdates : List Int
deriving DecidableEq, Repr

structure EventP where
  id : String
  summary : Option String
  location : Option String
  description : Option String
  start : Int
  end_ : Int
  rrule : Option RRuleData
deriving DecidableEq, Repr

def EventP.default : EventP := ⟨"", none, none, none, 0, 0, none⟩

/-- Model of `get_tz`: first value of the first `TZID` parameter; indexing
`value[0]` of an empty value list panics. -/
def get_tzM (maybe_params : Option (List (String × List String))) :
    Res (Option String) :=
  match maybe_params with
  | some params =>
    match params.find? (fun p => p.1 = "TZID") with
    | some pr =>
      match pr.2 with
      | v :: _ => .ok (some v)
      | [] => .panic
    | none => .ok none
  | none => .ok none

/-- Append an rdate to the rrule of the first event with the given id
(`events.iter_mut().find(..)`); an event without an rrule is left alone. -/
def addRdateFirst (id : String) (t : Int) : List EventP → List EventP
  | [] => []
  | e :: es =>
    if e.id = id then
      (match e.rrule with
       | some r => { e with rrule := some { r with rdates := r.rdates ++ [t] } }
       | none => e) :: es
    else e :: addRdateFirst id t es

/-- Model of one iteration of the property loop in `parse_ics`: `events` is
the accumulator of already finished events, `event` the one being built,
`dtstart` the pending reconstructed anchor for a later `RRULE`. -/
def processProp (db : String → Option Tz) (localTz : Tz) (g : String → Bool)
    (events : List EventP) (event : EventP) (dtstart : Option String)
    (prop : IcsProp) : Res (List EventP × EventP × Option String) :=
  match prop.name with
  | "UID" =>
    match prop.value with
    | some v => .ok (events, { event with id := v }, dtstart)
    | none => .panic
  | "DESCRIPTION" => .ok (events, { event with description := prop.value }, dtstart)
  | "SUMMARY" => .ok (events, { event with summary := prop.value }, dtstart)
  | "LOCATION" => .ok (events, { event with location := prop.value }, dtstart)
  | "DTSTART" =>
    match prop.value with
    | none => .panic
    | some v =>
      Res.bind (get_tzM prop.params) fun tzp =>
      Res.bind (parse_datetimeM db localTz v tzp) fun t =>
      Res.bind (reconstruct_datetimeM db t tzp) fun frag =>
      .ok (events, { event with start := t }, some (String.mk frag))
  | "DTEND" =>
    match prop.value with
    | none => .panic
    | some v =>
      Res.bind (get_tzM prop.params) fun tzp =>
      Res.bind (parse_datetimeM db localTz v tzp) fun t =>
      .ok (events, { event with end_ := t }, dtstart)
  | "RRULE" =>
    match dtstart with
    | none => .panic
    | some ds =>
      match prop.value with
      | none => .panic
      | some v =>
        let rrule_str := "DTSTART" ++ ds ++ "\n" ++ v
        if g rrule_str then
          .ok (events, { event with rrule := some ⟨rrule_str, [], []⟩ }, dtstart)
        else .err
  | "EXDATE" =>
    match prop.value with
    | none => .panic
    | some v =>
      Res.bind (get_tzM prop.params) fun tzp =>
      Res.bind (parse_datetimeM db localTz v tzp) fun t =>
      match event.rrule with
      | some r =>
        .ok (events, { event with rrule := some { r with exdates := r.exdates ++ [t] } }, dtstart)
      | none => .ok (events, event, dtstart)
  | "RECURRENCE-ID" =>
    match events.find? (fun e => e.id = event.id) with
    | some _ =>
      match prop.value with
      | none => .panic
      | some v =>
        Res.bind (get_tzM prop.params) fun tzp =>
        Res.bind (parse_datetimeM db localTz v tzp) fun t =>
        .ok (addRdateFirst event.id t events, event, dtstart)
    | none => .ok (events, event, dtstart)
  | _ => .ok (events, event, dtstart)

/-- Fold of `processProp` over one VEVENT's property list. -/
def processProps (db : String → Option Tz) (localTz : Tz) (g : String → Bool)
    (events : List EventP) (event : EventP) (dtstart : Option String) :
    List IcsProp → Res (List EventP × EventP)
  | [] => .ok (events, event)
  | p :: ps =>
    Res.bind (processProp db localTz g events event dtstart p) fun st =>
    processProps db localTz g st.1 st.2.1 st.2.2 ps

/-- Model of the event loop of `parse_ics`: each VEVENT is processed from a
fresh default event and `None` pending anchor, and pushed at the end. -/
def parse_icsEvents (db : String → Option Tz) (localTz : Tz) (g : String → Bool)
    (events : List EventP) : List (List IcsProp) → Res (List EventP)
  | [] => .ok events
  | v :: vs =>
    Res.bind (processProps db localTz g events EventP.default none v) fun st =>
    parse_icsEvents db localTz g (st.1 ++ [st.2]) vs

/-- Model of `parse_ics` on a pre-tokenized file (a list of VEVENT property
lists). -/
def parse_icsM (db : String → Option Tz) (localTz : Tz) (g : String → Bool)
    (vevents : List (List IcsProp)) : Res (List EventP) :=
  parse_icsEvents db localTz g [] vevents

/-! ## Model of `event.rs::Event` and the window selection of `main.rs`

At selection time the only capability of an `RRuleSet` the code uses is
`after(instant, inclusive = true)` — the next occurrence on or after the
instant — so the recurrence is modelled by that function. -/

structure RRuleM where
  after : Int → Option Int

structure SEvent where
  summary : Option String
  location : Option String
  description : Option String
  start : Int
  end_ : Int
  rrule : Option RRuleM

/-- Model of `Event::duration`: `end - start` (may be zero or negative). -/
def SEvent.duration (e : SEvent) : Int := e.end_ - e.start

/-- Model of `Event::default`: epoch sentinel instants, everything else empty. -/
def SEvent.default : SEvent := ⟨none, none, none, 0, 0, none⟩

/-- Model of `impl PartialEq for Event`: equality of summary, start and end
only. -/
def eventEqb (a b : SEvent) : Bool :=
  a.summary == b.summary && a.start == b.start && a.end_ == b.end_

/-- Model of `impl Ord for Event` as the "less or equal" test: by `start`,
ties broken by `end`. -/
def eventLe (a b : SEvent) : Bool :=
  a.start < b.start || (a.start == b.start && a.end_ ≤ b.end_)

/-- The `Ord`-derived relation as a proposition. -/
def eventLeP (a b : SEvent) : Prop := eventLe a b = true

instance : DecidableRel eventLeP := fun a b => by
  unfold eventLeP
  infer_instance

/-- Model of `slice::sort` (a stable sort): an insertion sort in which an
earlier element is inserted in front of the first later element it is `≤`,
so elements with equal keys keep their arrival order — extensionally the
unique stable sort for the total preorder `eventLeP`. -/
def sortStable (l : List SEvent) : List SEvent := List.insertionSort eventLeP l

/-- Model of `Vec::dedup`: drop every element equal (per `eqb`) to the last
retained element. -/
def dedupKeepFirst {α : Type} (eqb : α → α → Bool) : List α → List α
  | [] => []
  | x :: xs => x :: dedupGo eqb x xs
where
  dedupGo (eqb : α → α → Bool) (prev : α) : List α → List α
    | [] => []
    | y :: ys => if eqb prev y then dedupGo eqb prev ys else y :: dedupGo eqb y ys

/-- Model of the per-event body of the `filter_map` in
`load_upcoming_events` (`endW` is `since + horizon`). -/
def selectEvent (since endW : Int) (event : SEvent) : Option SEvent :=
  match event.rrule with
  | some rrule =>
    match rrule.after since with
    | some next =>
      if next ≤ endW then
        some { event with start := next, end_ := next + SEvent.duration event }
      else none
    | none => none
  | none =>
    if since ≤ event.start ∧ event.start ≤ endW then some event else none

/-- Model of the pure core of `load_upcoming_events`: filter-map each event
through `selectEvent`, sort (stably, by start then end), dedup. -/
def load_upcoming_eventsM (events : List SEvent) (since horizon : Int) :
    List SEvent :=
  let endW := since + horizon
  dedupKeepFirst eventEqb
    (sortStable (events.filterMap (selectEvent since endW)))

/-! ## Model of `moment.rs::Moment` and its `Ord` instance

`Moment.DateTime` carries epoch seconds; `Moment.Date` carries a day count
(a `chrono::Date<Utc>`, whose `cmp` is calendar-date comparison).
`DateTime::date()` truncates an instant to its UTC calendar date. -/

inductive Moment where
  | DateTime : Int → Moment
  | Date : Int → Moment
deriving DecidableEq, Repr

/-- Integer comparison as chrono/std `Ord::cmp`. -/
def cmpInt (a b : Int) : Ordering :=
  if a < b then .lt else if a = b then .eq else .gt

/-- Model of `DateTime::date()`: the day count containing the instant. -/
def dateOfSecs (t : Int) : Int := t / 86400

/-- Model of `impl Ord for Moment`: instants compare as instants, a `Date`
against a `DateTime` compares by calendar date (`dt.date().cmp(d)`). -/
def Moment.cmp : Moment → Moment → Ordering
  | .DateTime t, .DateTime t' => cmpInt t t'
  | .DateTime t, .Date d => cmpInt (dateOfSecs t) d
  | .Date d, .DateTime t => cmpInt d (dateOfSecs t)
  | .Date d, .Date d' => cmpInt d d'

/-- Midnight instant of a `Date<Utc>` (`d.and_hms(0, 0, 0)`). -/
def midnightOfDate (d : Int) : Int := 86400 * d

/-! ## Lemmas: civil-calendar arithmetic -/

theorem yoe_char (doe : Int) (h0 : 0 ≤ doe) (h1 : doe ≤ 146096) :
    0 ≤ yoeOfDoe doe ∧ yoeOfDoe doe ≤ 399 ∧
      yearStartOfEra (yoeOfDoe doe) ≤ doe ∧
      (yoeOfDoe doe = 399 ∨ doe < yearStartOfEra (yoeOfDoe doe + 1)) := by
  unfold yoeOfDoe yearStartOfEra
  dsimp only
  split_ifs <;> omega

theorem civilFromDays_split (z : Int) :
    ∃ era yoe mp doy dd,
      0 ≤ yoe ∧ yoe ≤ 399 ∧ 0 ≤ mp ∧ mp ≤ 11 ∧
      (153 * mp + 2) / 5 ≤ doy ∧ (mp ≤ 10 → doy < (153 * (mp + 1) + 2) / 5) ∧
      0 ≤ doy ∧ doy ≤ 365 ∧
      (doy = 365 → yoe = 399 ∨ ((yoe + 1) % 4 = 0 ∧ (yoe + 1) % 100 ≠ 0)) ∧
      dd = doy - (153 * mp + 2) / 5 + 1 ∧
      era * 146097 + (365 * yoe + yoe / 4 - yoe / 100) + doy - 719468 = z ∧
      civilFromDays z =
        (if (if mp < 10 then mp + 3 else mp - 9) ≤ 2 then yoe + era * 400 + 1 else yoe + era * 400,
         if mp < 10 then mp + 3 else mp - 9, dd) := by
  have h0 : 0 ≤ z + 719468 - (z + 719468) / 146097 * 146097 := by omega
  have h1 : z + 719468 - (z + 719468) / 146097 * 146097 ≤ 146096 := by omega
  obtain ⟨hy0, hy1, hy2, hy3⟩ := yoe_char _ h0 h1
  unfold yearStartOfEra at hy2 hy3
  refine ⟨(z + 719468) / 146097,
    yoeOfDoe (z + 719468 - (z + 719468) / 146097 * 146097),
    (5 * (z + 719468 - (z + 719468) / 146097 * 146097 -
      yearStartOfEra (yoeOfDoe (z + 719468 - (z + 719468) / 146097 * 146097))) + 2) / 153,
    z + 719468 - (z + 719468) / 146097 * 146097 -
      yearStartOfEra (yoeOfDoe (z + 719468 - (z + 719468) / 146097 * 146097)),
    z + 719468 - (z + 719468) / 146097 * 146097 -
        yearStartOfEra (yoeOfDoe (z + 719468 - (z + 719468) / 146097 * 146097)) -
      (153 * ((5 * (z + 719468 - (z + 719468) / 146097 * 146097 -
        yearStartOfEra (yoeOfDoe (z + 719468 - (z + 719468) / 146097 * 146097))) + 2) / 153) + 2) / 5
      + 1,
    hy0, hy1, ?_, ?_, ?_, ?_, ?_, ?_, ?_, rfl, ?_, ?_⟩
  case _ => unfold yearStartOfEra at *; rcases hy3 with h | h <;> omega
  case _ => unfold yearStartOfEra at *; rcases hy3 with h | h <;> omega
  case _ => unfold yearStartOfEra at *; rcases hy3 with h | h <;> omega
  case _ => unfold yearStartOfEra at *; intro hle; rcases hy3 with h | h <;> omega
  case _ => unfold yearStartOfEra at *; rcases hy3 with h | h <;> omega
  case _ => unfold yearStartOfEra at *; rcases hy3 with h | h <;> omega
  case _ =>
    unfold yearStartOfEra at *
    intro h365
    rcases hy3 with h | h
    · exact Or.inl h
    · generalize hg : yoeOfDoe (z + 719468 - (z + 719468) / 146097 * 146097) = yoe at *
      have e1 : yoe / 4 ≤ (yoe + 1) / 4 := by omega
      have e2 : (yoe + 1) / 4 ≤ yoe / 4 + 1 := by omega
      have e3 : yoe / 100 ≤ (yoe + 1) / 100 := by omega
      have e4 : (yoe + 1) / 100 ≤ yoe / 100 + 1 := by omega
      have e5 : (yoe + 1) / 4 = yoe / 4 + 1 → (yoe + 1) % 4 = 0 := by omega
      have e6 : (yoe + 1) % 100 = 0 → (yoe + 1) / 100 = yoe / 100 + 1 := by omega
      have e7 : (yoe + 1) / 4 = yoe / 4 + 1 := by omega
      exact Or.inr ⟨e5 e7, by omega⟩
  case _ => unfold yearStartOfEra at *; rcases hy3 with h | h <;> omega
  case _ => unfold civilFromDays; rfl

theorem civilFromDays_inv (z : Int) :
    daysFromCivil (civilFromDays z).1 (civilFromDays z).2.1 (civilFromDays z).2.2 = z := by
  obtain ⟨era, yoe, mp, doy, dd, hy0, hy1, hm0, hm1, hd0, hd1, hdoy0, hdoy1, hleap, hdd, heq, hc⟩ :=
    civilFromDays_split z
  rw [hc]
  unfold daysFromCivil
  dsimp only
  split_ifs <;>
    (try rw [show mp + 3 - 3 = mp from by omega]) <;>
    (try rw [show mp - 9 + 9 = mp from by omega]) <;>
    omega

theorem civilFromDays_valid (z : Int) :
    1 ≤ (civilFromDays z).2.1 ∧ (civilFromDays z).2.1 ≤ 12 ∧
      1 ≤ (civilFromDays z).2.2 ∧
      (civilFromDays z).2.2 ≤ daysInMonth (civilFromDays z).1 (civilFromDays z).2.1 := by
  obtain ⟨era, yoe, mp, doy, dd, hy0, hy1, hm0, hm1, hd0, hd1, hdoy0, hdoy1, hleap, hdd, heq, hc⟩ :=
    civilFromDays_split z
  rw [hc]
  unfold daysInMonth
  refine ⟨?_, ?_, ?_, ?_⟩ <;> split_ifs <;>
    (try simp only [isLeapYear, Bool.or_eq_true, Bool.and_eq_true, beq_iff_eq,
      bne_iff_ne, ne_eq, decide_eq_true_eq] at *) <;> omega

theorem civilFromDays_y_bound (z : Int) (h0 : 0 ≤ z) (h1 : z ≤ 2932896) :
    0 ≤ (civilFromDays z).1 ∧ (civilFromDays z).1 ≤ 9999 := by
  obtain ⟨era, yoe, mp, doy, dd, hy0, hy1, hm0, hm1, hd0, hd1, hdoy0, hdoy1, hleap, hdd, heq, hc⟩ :=
    civilFromDays_split z
  rw [hc]
  dsimp only
  split_ifs <;> omega

theorem civilFromSecs_inv (t : Int) :
    secsFromCivil (civilFromSecs t).y (civilFromSecs t).m (civilFromSecs t).d
      (civilFromSecs t).hh (civilFromSecs t).mi (civilFromSecs t).ss = t := by
  have h := civilFromDays_inv (t / 86400)
  unfold civilFromSecs secsFromCivil
  dsimp only
  rw [h]
  omega

theorem civilFromSecs_validCivil (t : Int) :
    validCivil (civilFromSecs t).y (civilFromSecs t).m (civilFromSecs t).d
      (civilFromSecs t).hh (civilFromSecs t).mi (civilFromSecs t).ss := by
  have h := civilFromDays_valid (t / 86400)
  unfold civilFromSecs validCivil
  dsimp only
  exact ⟨h.1, h.2.1, h.2.2.1, h.2.2.2, by omega, by omega, by omega, by omega, by omega, by omega⟩

theorem civilFromSecs_y_range (t : Int) (h0 : 0 ≤ t) (h1 : t < 253402300800) :
    0 ≤ (civilFromSecs t).y ∧ (civilFromSecs t).y ≤ 9999 := by
  have h := civilFromDays_y_bound (t / 86400) (by omega) (by omega)
  unfold civilFromSecs
  dsimp only
  exact h

/-! ## Lemmas: digit strings -/

theorem digitVal_digitOf (n : Int) : digitVal (digitOf n) = some (n % 10) := by
  unfold digitOf digitVal
  rcases (show n % 10 = 0 ∨ n % 10 = 1 ∨ n % 10 = 2 ∨ n % 10 = 3 ∨ n % 10 = 4 ∨
      n % 10 = 5 ∨ n % 10 = 6 ∨ n % 10 = 7 ∨ n % 10 = 8 ∨ n % 10 = 9 from by omega) with
    h|h|h|h|h|h|h|h|h|h <;> rw [h] <;> decide

theorem digitOf_ne_T (n : Int) : (digitOf n == 'T') = false := by
  unfold digitOf
  rcases (show n % 10 = 0 ∨ n % 10 = 1 ∨ n % 10 = 2 ∨ n % 10 = 3 ∨ n % 10 = 4 ∨
      n % 10 = 5 ∨ n % 10 = 6 ∨ n % 10 = 7 ∨ n % 10 = 8 ∨ n % 10 = 9 from by omega) with
    h|h|h|h|h|h|h|h|h|h <;> rw [h] <;> rfl

theorem digitOf_ne_Z (n : Int) : (digitOf n == 'Z') = false := by
  unfold digitOf
  rcases (show n % 10 = 0 ∨ n % 10 = 1 ∨ n % 10 = 2 ∨ n % 10 = 3 ∨ n % 10 = 4 ∨
      n % 10 = 5 ∨ n % 10 = 6 ∨ n % 10 = 7 ∨ n % 10 = 8 ∨ n % 10 = 9 from by omega) with
    h|h|h|h|h|h|h|h|h|h <;> rw [h] <;> rfl

theorem read2_fmt2 (n : Int) (rest : List Char) (h0 : 0 ≤ n) (h1 : n ≤ 99) :
    read2 (fmt2 n ++ rest) = some (n, rest) := by
  unfold fmt2 read2
  simp only [List.cons_append, List.nil_append]
  rw [digitVal_digitOf (n / 10), digitVal_digitOf n]
  dsimp only
  have h2 : 10 * (n / 10 % 10) + n % 10 = n := by omega
  rw [h2]

theorem read4_fmt4 (n : Int) (rest : List Char) (h0 : 0 ≤ n) (h1 : n ≤ 9999) :
    read4 (fmt4 n ++ rest) = some (n, rest) := by
  unfold fmt4 read4
  simp only [List.cons_append, List.nil_append]
  rw [digitVal_digitOf (n / 1000), digitVal_digitOf (n / 100), digitVal_digitOf (n / 10),
    digitVal_digitOf n]
  dsimp only
  have h2 : 1000 * (n / 1000 % 10) + 100 * (n / 100 % 10) + 10 * (n / 10 % 10) + n % 10 = n := by
    omega
  rw [h2]

theorem daysInMonth_le31 (y m : Int) : daysInMonth y m ≤ 31 := by
  unfold daysInMonth
  split_ifs <;> omega

theorem fmtYmdHms_getLast (c : Civil) : (fmtYmdHms c).getLast? = some (digitOf c.ss) := by
  rfl

theorem fmtYmdHms_Z_getLast (c : Civil) :
    (fmtYmdHms c ++ ['Z']).getLast? = some 'Z' := by
  rfl

theorem beq_T_digitOf (n : Int) : ('T' == digitOf n) = false := by
  unfold digitOf
  rcases (show n % 10 = 0 ∨ n % 10 = 1 ∨ n % 10 = 2 ∨ n % 10 = 3 ∨ n % 10 = 4 ∨
      n % 10 = 5 ∨ n % 10 = 6 ∨ n % 10 = 7 ∨ n % 10 = 8 ∨ n % 10 = 9 from by omega) with
    h|h|h|h|h|h|h|h|h|h <;> rw [h] <;> rfl

theorem fmtYmdHms_contains_T (c : Civil) : (fmtYmdHms c).contains 'T' = true := by
  show (fmt4 c.y ++ fmt2 c.m ++ fmt2 c.d ++ 'T' :: (fmt2 c.hh ++ fmt2 c.mi ++ fmt2 c.ss)).contains 'T' = true
  simp [fmt4, fmt2, List.contains]

theorem fmtYmdHms_Z_contains_T (c : Civil) :
    ((fmtYmdHms c ++ ['Z']).contains 'T') = true := by
  show ((fmt4 c.y ++ fmt2 c.m ++ fmt2 c.d ++ 'T' :: (fmt2 c.hh ++ fmt2 c.mi ++ fmt2 c.ss)) ++ ['Z']).contains 'T' = true
  simp [fmt4, fmt2, List.contains]

theorem read2_fmt2_nil (n : Int) (h0 : 0 ≤ n) (h1 : n ≤ 99) :
    read2 (fmt2 n) = some (n, []) := by
  have h := read2_fmt2 n [] h0 h1
  rwa [List.append_nil] at h

theorem parseYmdHms_fmt_noZ (c : Civil) (hv : validCivil c.y c.m c.d c.hh c.mi c.ss)
    (hy0 : 0 ≤ c.y) (hy1 : c.y ≤ 9999) :
    parseYmdHms (fmtYmdHms c) false = some c := by
  obtain ⟨h1, h2, h3, h4, h5, h6, h7, h8, h9, h10⟩ := hv
  have hd31 := daysInMonth_le31 c.y c.m
  unfold parseYmdHms fmtYmdHms
  simp only [List.append_assoc, List.cons_append]
  rw [read4_fmt4 c.y _ hy0 hy1, Option.some_bind]
  dsimp only
  rw [read2_fmt2 c.m _ (by omega) (by omega), Option.some_bind]
  dsimp only
  rw [read2_fmt2 c.d _ (by omega) (by omega), Option.some_bind]
  dsimp only
  rw [if_pos rfl]
  rw [read2_fmt2 c.hh _ (by omega) (by omega), Option.some_bind]
  dsimp only
  rw [read2_fmt2 c.mi _ (by omega) (by omega), Option.some_bind]
  dsimp only
  rw [read2_fmt2_nil c.ss (by omega) (by omega)]
  dsimp only [Option.some_bind]
  rw [if_pos ⟨rfl, ⟨h1, h2, h3, h4, h5, h6, h7, h8, h9, h10⟩⟩]

theorem parseYmdHms_fmt_Z (c : Civil) (hv : validCivil c.y c.m c.d c.hh c.mi c.ss)
    (hy0 : 0 ≤ c.y) (hy1 : c.y ≤ 9999) :
    parseYmdHms (fmtYmdHms c ++ ['Z']) true = some c := by
  obtain ⟨h1, h2, h3, h4, h5, h6, h7, h8, h9, h10⟩ := hv
  have hd31 := daysInMonth_le31 c.y c.m
  unfold parseYmdHms fmtYmdHms
  simp only [List.append_assoc, List.cons_append]
  rw [read4_fmt4 c.y _ hy0 hy1, Option.some_bind]
  dsimp only
  rw [read2_fmt2 c.m _ (by omega) (by omega), Option.some_bind]
  dsimp only
  rw [read2_fmt2 c.d _ (by omega) (by omega), Option.some_bind]
  dsimp only
  rw [if_pos rfl]
  rw [read2_fmt2 c.hh _ (by omega) (by omega), Option.some_bind]
  dsimp only
  rw [read2_fmt2 c.mi _ (by omega) (by omega), Option.some_bind]
  dsimp only
  rw [read2_fmt2 c.ss ['Z'] (by omega) (by omega)]
  dsimp only [Option.some_bind]
  rw [if_pos ⟨rfl, ⟨h1, h2, h3, h4, h5, h6, h7, h8, h9, h10⟩⟩]

theorem utc_candidates (loc : Int) : localToUtcCandidates utcTz loc = [loc] := by
  simp [localToUtcCandidates, utcTz]

theorem parse_datetimeM_Z_any_tz (db : String → Option Tz) (localTz : Tz) (s : String)
    (tzp : Option String) (h : s.data.getLast? = some 'Z') :
    parse_datetimeM db localTz s tzp = parse_datetimeM db localTz s none := by
  unfold parse_datetimeM
  dsimp only
  rw [h]
  rw [show (some 'Z' == some 'Z') = true from rfl]
  rfl

theorem parse_fmtZ (db : String → Option Tz) (localTz : Tz) (tzp : Option String) (u : Int)
    (h0 : 0 ≤ u) (h1 : u < 253402300800) :
    parse_datetimeM db localTz (String.mk (fmtYmdHms (civilFromSecs u) ++ ['Z'])) tzp = .ok u := by
  have hv := civilFromSecs_validCivil u
  have hy := civilFromSecs_y_range u h0 h1
  have hp := parseYmdHms_fmt_Z (civilFromSecs u) hv hy.1 hy.2
  have hinv := civilFromSecs_inv u
  unfold parse_datetimeM
  dsimp only
  rw [fmtYmdHms_Z_getLast]
  rw [show (some 'Z' == some 'Z') = true from rfl]
  rw [if_pos rfl]
  rw [show Res.bind (Res.ok utcTz) = fun f => f utcTz from rfl]
  dsimp only
  rw [fmtYmdHms_Z_contains_T]
  rw [if_pos rfl]
  rw [hp]
  dsimp only
  rw [hinv, utc_candidates]

theorem parse_fmt_named (db : String → Option Tz) (localTz : Tz) (zname : String) (z : Tz)
    (loc u : Int) (hdb : db zname = some z)
    (h0 : 0 ≤ loc) (h1 : loc < 253402300800)
    (hcand : localToUtcCandidates z loc = [u]) :
    parse_datetimeM db localTz (String.mk (fmtYmdHms (civilFromSecs loc))) (some zname)
      = .ok u := by
  have hv := civilFromSecs_validCivil loc
  have hy := civilFromSecs_y_range loc h0 h1
  have hp := parseYmdHms_fmt_noZ (civilFromSecs loc) hv hy.1 hy.2
  have hinv := civilFromSecs_inv loc
  unfold parse_datetimeM
  dsimp only
  rw [fmtYmdHms_getLast]
  rw [show (some (digitOf (civilFromSecs loc).ss) == some 'Z') = false from by
    have h := digitOf_ne_Z (civilFromSecs loc).ss
    rw [beq_eq_false_iff_ne] at h ⊢
    simp only [ne_eq, Option.some.injEq]
    exact h]
  rw [if_neg (by simp)]
  rw [hdb]
  rw [show Res.bind (Res.ok z) = fun f => f z from rfl]
  dsimp only
  rw [fmtYmdHms_contains_T]
  rw [if_pos rfl]
  rw [hp]
  dsimp only
  rw [hinv, hcand]

theorem reconstruct_utc (db : String → Option Tz) (u : Int) :
    reconstruct_datetimeM db u none = .ok (':' :: (fmtYmdHms (civilFromSecs u) ++ ['Z'])) := by
  unfold reconstruct_datetimeM
  dsimp only
  rw [show Res.bind (Res.ok utcTz) = fun f => f utcTz from rfl]
  dsimp only
  rw [show utcTz.offAtUtc u = 0 from rfl, add_zero]
  rfl

theorem reconstruct_named (db : String → Option Tz) (zname : String) (z : Tz) (u : Int)
    (hdb : db zname = some z) (hname : z.name ≠ "UTC") :
    reconstruct_datetimeM db u (some zname)
      = .ok (';' :: ("TZID=".data ++ z.name.data ++ ':' ::
          fmtYmdHms (civilFromSecs (u + z.offAtUtc u)))) := by
  unfold reconstruct_datetimeM
  dsimp only
  rw [hdb]
  rw [show Res.bind (Res.ok z) = fun f => f z from rfl]
  dsimp only
  rw [if_neg hname]

theorem parseDate8_fmt (y m d : Int) (hy0 : 0 ≤ y) (hy1 : y ≤ 9999)
    (hm0 : 0 ≤ m) (hm1 : m ≤ 99) (hd0 : 0 ≤ d) (hd1 : d ≤ 99) :
    parseDate8 (fmtYmd y m d) = .ok (y, m, d) := by
  unfold fmtYmd fmt4 fmt2 parseDate8
  simp only [List.cons_append, List.nil_append]
  rw [digitVal_digitOf (y / 1000), digitVal_digitOf (y / 100), digitVal_digitOf (y / 10),
    digitVal_digitOf y, digitVal_digitOf (m / 10), digitVal_digitOf m,
    digitVal_digitOf (d / 10), digitVal_digitOf d]
  dsimp only
  rw [show (1000 * (y / 1000 % 10) + 100 * (y / 100 % 10) + 10 * (y / 10 % 10) + y % 10 : Int)
      = y from by omega,
    show (10 * (m / 10 % 10) + m % 10 : Int) = m from by omega,
    show (10 * (d / 10 % 10) + d % 10 : Int) = d from by omega]

theorem fmtYmd_getLast (y m d : Int) : (fmtYmd y m d).getLast? = some (digitOf d) := by
  rfl

theorem fmtYmd_no_T (y m d : Int) : (fmtYmd y m d).contains 'T' = false := by
  show (fmt4 y ++ fmt2 m ++ fmt2 d).contains 'T' = false
  simp [fmt4, fmt2, List.contains]
  refine ⟨?_, ?_, ?_, ?_, ?_, ?_, ?_, ?_⟩ <;>
    (intro h; have := beq_T_digitOf; simp_all)

theorem parse_fmtYmd (db : String → Option Tz) (localTz : Tz) (y m d u : Int)
    (hv : validCivil y m d 0 0 0) (hy0 : 0 ≤ y) (hy1 : y ≤ 9999)
    (hcand : localToUtcCandidates localTz (secsFromCivil y m d 0 0 0) = [u]) :
    parse_datetimeM db localTz (String.mk (fmtYmd y m d)) none = .ok u := by
  obtain ⟨h1, h2, h3, h4, h5, h6, h7, h8, h9, h10⟩ := hv
  have hd31 := daysInMonth_le31 y m
  unfold parse_datetimeM
  dsimp only
  rw [fmtYmd_getLast]
  rw [show (some (digitOf d) == some 'Z') = false from by
    have h := digitOf_ne_Z d
    rw [beq_eq_false_iff_ne] at h ⊢
    simp only [ne_eq, Option.some.injEq]
    exact h]
  rw [if_neg (by simp)]
  rw [show Res.bind (Res.ok utcTz) = fun f => f utcTz from rfl]
  dsimp only
  rw [fmtYmd_no_T]
  rw [if_neg (by simp)]
  rw [parseDate8_fmt y m d hy0 hy1 (by omega) (by omega) (by omega) (by omega)]
  rw [show Res.bind (Res.ok (y, m, d)) = fun f => f (y, m, d) from rfl]
  dsimp only
  rw [if_pos ⟨h1, h2, h3, h4, by omega, by omega, by omega, by omega, by omega, by omega⟩]
  rw [hcand]

/-! ## Lemmas: window selection -/

theorem eventLe_iff (a b : SEvent) :
    eventLe a b = true ↔ a.start < b.start ∨ (a.start = b.start ∧ a.end_ ≤ b.end_) := by
  unfold eventLe
  simp [Bool.or_eq_true, Bool.and_eq_true, decide_eq_true_eq, beq_iff_eq]

instance : IsTotal SEvent eventLeP :=
  ⟨fun a b => by unfold eventLeP; rw [eventLe_iff, eventLe_iff]; omega⟩

instance : IsTrans SEvent eventLeP :=
  ⟨fun a b c hab hbc => by
    unfold eventLeP at *
    rw [eventLe_iff] at hab hbc ⊢
    omega⟩

theorem sortStable_sorted (l : List SEvent) : List.Pairwise eventLeP (sortStable l) :=
  List.sorted_insertionSort eventLeP l

theorem dedupGo_sublist {α : Type} (eqb : α → α → Bool) :
    ∀ (l : List α) (prev : α), List.Sublist (dedupKeepFirst.dedupGo eqb prev l) l := by
  intro l
  induction l with
  | nil => intro prev; simp [dedupKeepFirst.dedupGo]
  | cons y ys ih =>
    intro prev
    unfold dedupKeepFirst.dedupGo
    split_ifs with h
    · exact (ih prev).cons y
    · exact (ih y).cons₂ y

theorem dedupKeepFirst_sublist {α : Type} (eqb : α → α → Bool) (l : List α) :
    List.Sublist (dedupKeepFirst eqb l) l := by
  cases l with
  | nil => simp [dedupKeepFirst]
  | cons x xs => exact (dedupGo_sublist eqb xs x).cons₂ x

theorem dedupGo_chain {α : Type} (eqb : α → α → Bool) :
    ∀ (l : List α) (prev : α),
      List.Chain' (fun a b => eqb a b = false) (prev :: dedupKeepFirst.dedupGo eqb prev l) := by
  intro l
  induction l with
  | nil => intro prev; simp [dedupKeepFirst.dedupGo]
  | cons y ys ih =>
    intro prev
    unfold dedupKeepFirst.dedupGo
    split_ifs with h
    · exact ih prev
    · exact List.Chain'.cons (by simpa using h) (ih y)

theorem dedupKeepFirst_chain {α : Type} (eqb : α → α → Bool) (l : List α) :
    List.Chain' (fun a b => eqb a b = false) (dedupKeepFirst eqb l) := by
  cases l with
  | nil => simp [dedupKeepFirst]
  | cons x xs => exact dedupGo_chain eqb xs x

/-! ## Claim theorems: window selection -/

/-- C1: for every event carrying a recurrence, one `load_upcoming_events`
pass emits at most one projected occurrence: if the next occurrence on or
after `since` exists and is at most `since + horizon`, exactly one event is
emitted, with `start` the occurrence instant and `end` that instant plus the
template's original duration; otherwise nothing is emitted for that event. -/
theorem claim_C1 (since horizon : Int) (ev : SEvent) (r : RRuleM)
    (h : ev.rrule = some r) :
    (∀ n, r.after since = some n → n ≤ since + horizon →
      selectEvent since (since + horizon) ev
          = some { ev with start := n, end_ := n + SEvent.duration ev } ∧
        load_upcoming_eventsM [ev] since horizon
          = [{ ev with start := n, end_ := n + SEvent.duration ev }]) ∧
    (∀ n, r.after since = some n → since + horizon < n →
      selectEvent since (since + horizon) ev = none ∧
        load_upcoming_eventsM [ev] since horizon = []) ∧
    (r.after since = none →
      selectEvent since (since + horizon) ev = none ∧
        load_upcoming_eventsM [ev] since horizon = []) := by
  refine ⟨?_, ?_, ?_⟩
  · intro n hn hle
    have hs : selectEvent since (since + horizon) ev
        = some { ev with start := n, end_ := n + SEvent.duration ev } := by
      unfold selectEvent
      rw [h]
      dsimp only
      rw [hn]
      dsimp only
      rw [if_pos hle, ← h]
    refine ⟨hs, ?_⟩
    unfold load_upcoming_eventsM
    dsimp only
    rw [List.filterMap_cons, hs]
    rfl
  · intro n hn hgt
    have hs : selectEvent since (since + horizon) ev = none := by
      unfold selectEvent
      rw [h]
      dsimp only
      rw [hn]
      dsimp only
      rw [if_neg (by omega)]
    refine ⟨hs, ?_⟩
    unfold load_upcoming_eventsM
    dsimp only
    rw [List.filterMap_cons, hs]
    rfl
  · intro hn
    have hs : selectEvent since (since + horizon) ev = none := by
      unfold selectEvent
      rw [h]
      dsimp only
      rw [hn]
    refine ⟨hs, ?_⟩
    unfold load_upcoming_eventsM
    dsimp only
    rw [List.filterMap_cons, hs]
    rfl

/-- Witness for C1 at a concrete recurring event: next occurrence 52 within
the window, duration 15 preserved. -/
theorem claim_C1_witness :
    load_upcoming_eventsM
        [⟨some "w", none, none, 10, 25, some ⟨fun s => some (s + 2)⟩⟩] 50 100
      = [⟨some "w", none, none, 52, 67, some ⟨fun s => some (s + 2)⟩⟩] := by
  have h := ((claim_C1 50 100
      ⟨some "w", none, none, 10, 25, some ⟨fun s => some (s + 2)⟩⟩
      ⟨fun s => some (s + 2)⟩ rfl).1 52 rfl (by omega)).2
  exact h

/-- C2: an event without a recurrence is emitted unchanged iff
`since ≤ start ≤ since + horizon`; the end boundary is not checked.
Concretely (2024-01-10, 09:00–10:00 UTC): a query from midnight with a 24 h
horizon returns the event unshifted, and a query from 09:30 (inside the
event) returns nothing. -/
theorem claim_C2 :
    (∀ (since horizon : Int) (ev : SEvent), ev.rrule = none →
      (selectEvent since (since + horizon) ev = some ev ↔
        since ≤ ev.start ∧ ev.start ≤ since + horizon) ∧
      (¬(since ≤ ev.start ∧ ev.start ≤ since + horizon) →
        selectEvent since (since + horizon) ev = none)) ∧
    load_upcoming_eventsM [⟨some "meeting", none, none, 1704877200, 1704880800, none⟩]
        1704844800 86400
      = [⟨some "meeting", none, none, 1704877200, 1704880800, none⟩] ∧
    load_upcoming_eventsM [⟨some "meeting", none, none, 1704877200, 1704880800, none⟩]
        1704879000 86400 = [] ∧
    (1704877200 : Int) < 1704879000 ∧ (1704879000 : Int) < 1704880800 := by
  refine ⟨?_, by rfl, by rfl, by omega, by omega⟩
  intro since horizon ev hrr
  unfold selectEvent
  rw [hrr]
  constructor
  · split_ifs with hc
    · exact ⟨fun _ => hc, fun _ => rfl⟩
    · exact ⟨fun hx => absurd hx (by simp), fun hx => absurd hx hc⟩
  · intro hc
    rw [if_neg hc]

/-- Witness for C2's general part at a concrete non-recurring event. -/
theorem claim_C2_witness :
    selectEvent 0 10 ⟨some "e", none, none, 5, 6, none⟩
      = some ⟨some "e", none, none, 5, 6, none⟩ := by
  exact ((claim_C2.1 0 10 ⟨some "e", none, none, 5, 6, none⟩ rfl).1).mpr
    ⟨by decide, by decide⟩

/-- C9 (amended): the final output of the window selection is sorted by
`(start, end)` ascending, and duplicate collapsing is the `Vec::dedup`
semantics — no two *adjacent* entries are exact duplicates (identical
summary, start and end), and a run of adjacent duplicates collapses to its
first element.  Exact duplicates separated by an entry with the same
`(start, end)` key but a different summary survive, because the sort key
ignores the summary and the sort is stable (see the counterexample). -/
theorem claim_C9 :
    (∀ (events : List SEvent) (since horizon : Int),
      List.Pairwise eventLeP (load_upcoming_eventsM events since horizon) ∧
      List.Chain' (fun a b => eventEqb a b = false)
        (load_upcoming_eventsM events since horizon)) ∧
    load_upcoming_eventsM
        [⟨some "a", none, none, 0, 0, none⟩, ⟨some "a", none, none, 0, 0, none⟩] 0 10
      = [⟨some "a", none, none, 0, 0, none⟩] := by
  refine ⟨?_, by rfl⟩
  intro events since horizon
  unfold load_upcoming_eventsM
  dsimp only
  constructor
  · exact List.Pairwise.sublist
      (dedupKeepFirst_sublist eventEqb _)
      (sortStable_sorted _)
  · exact dedupKeepFirst_chain eventEqb _

/-- C9 counterexample: three selectable events with identical `(start, end)`
and summaries `"a"`, `"b"`, `"a"` all survive the sort + dedup, so two exact
duplicates (positions 0 and 2) remain in the output, refuting "no two exact
duplicates remain anywhere". -/
theorem claim_C9_counterexample :
    load_upcoming_eventsM
        [⟨some "a", none, none, 0, 0, none⟩, ⟨some "b", none, none, 0, 0, none⟩,
         ⟨some "a", none, none, 0, 0, none⟩] 0 10
      = [⟨some "a", none, none, 0, 0, none⟩, ⟨some "b", none, none, 0, 0, none⟩,
         ⟨some "a", none, none, 0, 0, none⟩] ∧
    eventEqb ⟨some "a", none, none, 0, 0, none⟩ ⟨some "a", none, none, 0, 0, none⟩
      = true := by
  exact ⟨by rfl, by rfl⟩

/-! ## Claim theorems: Moment ordering -/

/-- C3 counterexample: `Moment`'s comparison places a `Date` *equal* to any
`DateTime` of the same calendar day, so it is not antisymmetric, the
less-or-equal relation it induces is not transitive across mixed variants,
and a `Date` does not compare as its midnight instant (midnight of day 0 is
before the instant 01:00:00 of day 0, yet the comparison says `eq`). -/
theorem claim_C3_counterexample :
    Moment.cmp (.Date 0) (.DateTime 3600) = .eq ∧
    Moment.Date 0 ≠ Moment.DateTime 3600 ∧
    midnightOfDate 0 < 3600 ∧
    Moment.cmp (.Date 0) (.DateTime 3600) ≠ .lt ∧
    Moment.cmp (.DateTime 7200) (.Date 0) ≠ .gt ∧
    Moment.cmp (.Date 0) (.DateTime 3600) ≠ .gt ∧
    Moment.cmp (.DateTime 7200) (.DateTime 3600) = .gt := by
  refine ⟨by decide, by decide, by decide, by decide, by decide, by decide, by decide⟩

/-- C3 (amended): `Moment.cmp` is a total comparison consistent under
swapping its arguments; within one variant it is the usual total order on
instants (resp. dates); across variants a `Date` compares with a `DateTime`
by *calendar day* — `Date d < DateTime t` iff `d` is strictly before `t`'s
day, and they compare equal whenever `t` falls on day `d` — not by midnight
instant, so antisymmetry and mixed-variant transitivity fail. -/
theorem claim_C3 :
    (∀ d t, Moment.cmp (.Date d) (.DateTime t) = .lt ↔ d < dateOfSecs t) ∧
    (∀ d t, Moment.cmp (.Date d) (.DateTime t) = .eq ↔ d = dateOfSecs t) ∧
    (∀ a b, Moment.cmp a b = (Moment.cmp b a).swap) ∧
    (∀ d d', Moment.cmp (.Date d) (.Date d') = .lt ↔ d < d') ∧
    (∀ t t', Moment.cmp (.DateTime t) (.DateTime t') = .lt ↔ t < t') := by
  have hcmp : ∀ a b : Int, cmpInt a b = .lt ↔ a < b := by
    intro a b
    unfold cmpInt
    split_ifs with h1 h2
    · exact iff_of_true rfl h1
    · exact iff_of_false (by simp) (by omega)
    · exact iff_of_false (by simp) (by omega)
  have hceq : ∀ a b : Int, cmpInt a b = .eq ↔ a = b := by
    intro a b
    unfold cmpInt
    split_ifs with h1 h2
    · exact iff_of_false (by simp) (by omega)
    · exact iff_of_true rfl h2
    · exact iff_of_false (by simp) (by omega)
  have hswap : ∀ a b : Int, cmpInt a b = (cmpInt b a).swap := by
    intro a b
    unfold cmpInt
    split_ifs <;> first | rfl | (exfalso; omega)
  refine ⟨?_, ?_, ?_, ?_, ?_⟩
  · intro d t
    exact hcmp d (dateOfSecs t)
  · intro d t
    exact hceq d (dateOfSecs t)
  · intro a b
    cases a <;> cases b <;> exact hswap _ _
  · intro d d'
    exact hcmp d d'
  · intro t t'
    exact hcmp t t'

/-! ## Claim theorems: instant parsing and formatting -/

/-- C5 (amended): `parse_datetime` returns a recoverable error for a
`T`-containing text that fails the date-time pattern and for a `T`-less
text of at least 8 characters whose date slices are non-numeric; but an
unknown named timezone on non-`Z` text panics (`unwrap`) instead of
erroring, an all-digit `T`-less text shorter than 8 characters panics on
the out-of-range byte slice, and a `T`-less text longer than 8 characters
with a valid 8-digit prefix is accepted with the tail ignored. -/
theorem claim_C5 :
    (∀ (db : String → Option Tz) (localTz : Tz) (s : String) (name : String),
      (s.data.getLast? == some 'Z') = false → db name = none →
      parse_datetimeM db localTz s (some name) = .panic) ∧
    parse_datetimeM tzdb nyTz "XXXXXXXX" none = .err ∧
    parse_datetimeM tzdb nyTz "20211301T000000Z" none = .err ∧
    parse_datetimeM tzdb nyTz "2021103" none = .panic ∧
    parse_datetimeM tzdb nyTz "202110290" none = .ok 1635480000 := by
  refine ⟨?_, by decide, by decide, by decide, by decide⟩
  intro db localTz s name hz hdb
  unfold parse_datetimeM
  dsimp only
  rw [hz]
  rw [if_neg (by simp)]
  rw [hdb]
  rfl

/-- C5 counterexample: an unknown timezone name makes `parse_datetime`
panic rather than return a `MalformedInstant`-style error. -/
theorem claim_C5_counterexample :
    parse_datetimeM tzdb nyTz "20200427T144500" (some "Not/A_Zone") = .panic := by
  decide

/-- Witness for C5's general panic-on-unknown-zone conjunct. -/
theorem claim_C5_witness :
    parse_datetimeM tzdb utcTz "20250101T000000" (some "Mars/Olympus") = .panic :=
  claim_C5.1 tzdb utcTz "20250101T000000" "Mars/Olympus" (by decide) (by rfl)

/-- C6: an 8-digit date text parses to midnight of that civil day in the
*local system zone* (whenever that midnight is unambiguous there), not in
UTC: the same text `"20240110"` yields 05:00 UTC when the system zone is
America/New_York and 00:00 UTC when the system zone is UTC. -/
theorem claim_C6 :
    (∀ (db : String → Option Tz) (localTz : Tz) (y m d u : Int),
      validCivil y m d 0 0 0 → 0 ≤ y → y ≤ 9999 →
      localToUtcCandidates localTz (secsFromCivil y m d 0 0 0) = [u] →
      parse_datetimeM db localTz (String.mk (fmtYmd y m d)) none = .ok u) ∧
    parse_datetimeM tzdb nyTz "20240110" none = .ok 1704862800 ∧
    parse_datetimeM tzdb utcTz "20240110" none = .ok 1704844800 ∧
    (1704844800 : Int) = secsFromCivil 2024 1 10 0 0 0 ∧
    (1704862800 : Int) ≠ 1704844800 := by
  refine ⟨?_, by decide, by decide, by decide, by decide⟩
  intro db localTz y m d u hv hy0 hy1 hcand
  exact parse_fmtYmd db localTz y m d u hv hy0 hy1 hcand

/-- Witness for C6's general conjunct at 2024-01-10 with the system zone
America/New_York. -/
theorem claim_C6_witness :
    parse_datetimeM tzdb nyTz (String.mk (fmtYmd 2024 1 10)) none = .ok 1704862800 :=
  claim_C6.1 tzdb nyTz 2024 1 10 1704862800 (by decide) (by decide) (by decide) (by decide)

/-- C7: a date-time text ending in `Z` is interpreted as UTC regardless of
the supplied timezone parameter, and the two reference vectors hold:
`"20210524T024254Z"` is 2021-05-24T02:42:54Z = 1621824174 and
`"20200427T144500"` in America/New_York is 2020-04-27T18:45:00Z
= 1588013100. -/
theorem claim_C7 :
    (∀ (db : String → Option Tz) (localTz : Tz) (s : String) (tzp : Option String),
      s.data.getLast? = some 'Z' →
      parse_datetimeM db localTz s tzp = parse_datetimeM db localTz s none) ∧
    (∀ (localTz : Tz) (tzp : Option String),
      parse_datetimeM tzdb localTz "20210524T024254Z" tzp = .ok 1621824174) ∧
    (∀ localTz : Tz,
      parse_datetimeM tzdb localTz "20200427T144500" (some "America/New_York")
        = .ok 1588013100) := by
  refine ⟨parse_datetimeM_Z_any_tz, ?_, ?_⟩
  · intro localTz tzp
    rw [parse_datetimeM_Z_any_tz tzdb localTz _ tzp (by decide)]
    rfl
  · intro localTz
    rfl

/-- Witness for C7's general conjunct: a `Z`-suffixed text parses the same
under an arbitrary (even nonsensical) timezone parameter. -/
theorem claim_C7_witness :
    parse_datetimeM tzdb utcTz "20210524T024254Z" (some "America/New_York")
      = parse_datetimeM tzdb utcTz "20210524T024254Z" none :=
  claim_C7.1 tzdb utcTz "20210524T024254Z" (some "America/New_York") (by decide)

/-- C8 (amended): the anchor formatter emits `:YYYYMMDDTHHMMSSZ` for UTC
and `;TZID=<zone>:YYYYMMDDTHHMMSS` for a named zone; re-parsing the
date-time fragment with the same zone parameter recovers the instant in the
UTC case always (within the 4-digit-year range), and in the named-zone case
exactly when the zone renders the instant unambiguously — at ambiguous
local times (DST fall-back) the re-parse panics instead (see the
counterexample), so the inverse property holds only outside those
instants. -/
theorem claim_C8 :
    (∀ (db : String → Option Tz) (u : Int),
      reconstruct_datetimeM db u none
        = .ok (':' :: (fmtYmdHms (civilFromSecs u) ++ ['Z']))) ∧
    (∀ (db : String → Option Tz) (localTz : Tz) (tzp : Option String) (u : Int),
      0 ≤ u → u < 253402300800 →
      parse_datetimeM db localTz (String.mk (fmtYmdHms (civilFromSecs u) ++ ['Z'])) tzp
        = .ok u) ∧
    (∀ (db : String → Option Tz) (zname : String) (z : Tz) (u : Int),
      db zname = some z → z.name ≠ "UTC" →
      reconstruct_datetimeM db u (some zname)
        = .ok (';' :: ("TZID=".data ++ z.name.data ++ ':' ::
            fmtYmdHms (civilFromSecs (u + z.offAtUtc u))))) ∧
    (∀ (db : String → Option Tz) (localTz : Tz) (zname : String) (z : Tz) (u : Int),
      db zname = some z →
      0 ≤ u + z.offAtUtc u → u + z.offAtUtc u < 253402300800 →
      localToUtcCandidates z (u + z.offAtUtc u) = [u] →
      parse_datetimeM db localTz
          (String.mk (fmtYmdHms (civilFromSecs (u + z.offAtUtc u)))) (some zname)
        = .ok u) := by
  refine ⟨reconstruct_utc, parse_fmtZ, ?_, ?_⟩
  · intro db zname z u hdb hname
    exact reconstruct_named db zname z u hdb hname
  · intro db localTz zname z u hdb h0 h1 hcand
    exact parse_fmt_named db localTz zname z (u + z.offAtUtc u) u hdb h0 h1 hcand

/-- C8 counterexample: 2020-11-01T05:30:00Z renders in America/New_York as
the ambiguous wall-clock time `20201101T013000` (the DST fall-back hour);
re-parsing that fragment with the same zone panics instead of recovering
the instant, so the formatter is not the exact inverse of parse for the
named-zone case. -/
theorem claim_C8_counterexample :
    reconstruct_datetimeM tzdb 1604208600 (some "America/New_York")
        = .ok (';' :: "TZID=America/New_York:20201101T013000".data) ∧
    parse_datetimeM tzdb nyTz "20201101T013000" (some "America/New_York") = .panic ∧
    (Res.panic : Res Int) ≠ .ok 1604208600 := by
  refine ⟨by decide, by decide, by decide⟩

/-- Witness for C8's named-zone inverse conjunct at the (unambiguous)
instant 2020-04-27T18:45:00Z in America/New_York. -/
theorem claim_C8_witness :
    parse_datetimeM tzdb utcTz
        (String.mk (fmtYmdHms (civilFromSecs (1588013100 + nyTz.offAtUtc 1588013100))))
        (some "America/New_York")
      = .ok 1588013100 :=
  claim_C8.2.2.2 tzdb utcTz "America/New_York" nyTz 1588013100 (by rfl)
    (by decide) (by decide) (by decide)

theorem res_bind_ok {α β : Type} (x : Res α) (f : α → Res β) (b : β)
    (h : Res.bind x f = .ok b) : ∃ a, x = .ok a ∧ f a = .ok b := by
  cases x with
  | ok a => exact ⟨a, rfl, h⟩
  | err => exact absurd h (by simp [Res.bind])
  | panic => exact absurd h (by simp [Res.bind])

theorem processProp_keeps_dtstart (db : String → Option Tz) (localTz : Tz)
    (g : String → Bool) (evs : List EventP) (ev : EventP) (ds : Option String)
    (p : IcsProp) (st : List EventP × EventP × Option String)
    (hname : p.name ≠ "DTSTART")
    (h : processProp db localTz g evs ev ds p = .ok st) : st.2.2 = ds := by
  unfold processProp at h
  split at h
  · split at h
    · cases h; rfl
    · cases h
  · cases h; rfl
  · cases h; rfl
  · cases h; rfl
  · exact absurd (by assumption) hname
  · split at h
    · cases h
    · obtain ⟨a, ha, h⟩ := res_bind_ok _ _ _ h
      obtain ⟨b, hb, h⟩ := res_bind_ok _ _ _ h
      cases h; rfl
  · split at h
    · cases h
    · split at h
      · cases h
      · dsimp only at h
        split at h
        · cases h; rfl
        · cases h
  · split at h
    · cases h
    · obtain ⟨a, ha, h⟩ := res_bind_ok _ _ _ h
      obtain ⟨b, hb, h⟩ := res_bind_ok _ _ _ h
      split at h
      · cases h; rfl
      · cases h; rfl
  · split at h
    · split at h
      · cases h
      · obtain ⟨a, ha, h⟩ := res_bind_ok _ _ _ h
        obtain ⟨b, hb, h⟩ := res_bind_ok _ _ _ h
        cases h; rfl
    · cases h; rfl
  · cases h; rfl

theorem processProps_benign (db : String → Option Tz) (localTz : Tz)
    (g : String → Bool) (evs : List EventP) (ev : EventP) (ds : Option String)
    (props : List IcsProp)
    (hnames : ∀ p ∈ props, p.name = "SUMMARY" ∨ p.name = "LOCATION" ∨ p.name = "DESCRIPTION") :
    ∃ ev', processProps db localTz g evs ev ds props = .ok (evs, ev') ∧
      ev'.start = ev.start ∧ ev'.end_ = ev.end_ := by
  induction props generalizing ev ds with
  | nil => exact ⟨ev, rfl, rfl, rfl⟩
  | cons p ps ih =>
    obtain ⟨nm, v, par⟩ := p
    rcases hnames ⟨nm, v, par⟩ (by simp) with h | h | h
    · dsimp only at h
      subst h
      unfold processProps
      rw [show processProp db localTz g evs ev ds ⟨"SUMMARY", v, par⟩
          = .ok (evs, { ev with summary := v }, ds) from rfl]
      exact ih { ev with summary := v } ds (fun q hq => hnames q (by simp [hq]))
    · dsimp only at h
      subst h
      unfold processProps
      rw [show processProp db localTz g evs ev ds ⟨"LOCATION", v, par⟩
          = .ok (evs, { ev with location := v }, ds) from rfl]
      exact ih { ev with location := v } ds (fun q hq => hnames q (by simp [hq]))
    · dsimp only at h
      subst h
      unfold processProps
      rw [show processProp db localTz g evs ev ds ⟨"DESCRIPTION", v, par⟩
          = .ok (evs, { ev with description := v }, ds) from rfl]
      exact ih { ev with description := v } ds (fun q hq => hnames q (by simp [hq]))

/-! ## Claim theorems: file parsing -/

/-- C4 (amended): an event whose `DTSTART`/`DTEND` are merely *missing*
(only summary/location/description properties) is parsed without failure,
stays at the sentinel epoch instants, and does not disturb the accumulated
events; concretely, a file whose first VEVENT has no date properties still
yields that sentinel event *and* the events of the later VEVENT blocks.
A present-but-malformed date value, by contrast, aborts the whole file
(see the counterexample). -/
theorem claim_C4 :
    (∀ (db : String → Option Tz) (localTz : Tz) (g : String → Bool)
      (evs : List EventP) (ev : EventP) (ds : Option String) (props : List IcsProp),
      (∀ p ∈ props, p.name = "SUMMARY" ∨ p.name = "LOCATION" ∨ p.name = "DESCRIPTION") →
      (∀ evs' ev', processProps db localTz g evs ev ds props = .ok (evs', ev') →
        evs' = evs ∧ ev'.start = ev.start ∧ ev'.end_ = ev.end_) ∧
      processProps db localTz g evs ev ds props ≠ .err ∧
      processProps db localTz g evs ev ds props ≠ .panic) ∧
    parse_icsM tzdb nyTz (fun _ => true)
        [[⟨"SUMMARY", some "no dates", none⟩],
         [⟨"DTSTART", some "20210524T024254Z", none⟩, ⟨"SUMMARY", some "second", none⟩]]
      = .ok [⟨"", some "no dates", none, none, 0, 0, none⟩,
             ⟨"", some "second", none, none, 1621824174, 0, none⟩] := by
  refine ⟨?_, by decide⟩
  intro db localTz g evs ev ds props hnames
  obtain ⟨evB, hB, hs, he⟩ := processProps_benign db localTz g evs ev ds props hnames
  refine ⟨?_, ?_, ?_⟩
  · intro evs' ev' h
    rw [hB] at h
    cases h
    exact ⟨rfl, hs, he⟩
  · rw [hB]
    simp
  · rw [hB]
    simp

/-- C4 counterexample: a VEVENT whose `DTSTART` *value* is present but
malformed makes `parse_ics` return an error for the whole file, so the
events of the remaining VEVENT blocks are lost — a single malformed event
does abort the scan. -/
theorem claim_C4_counterexample :
    parse_icsM tzdb nyTz (fun _ => true)
        [[⟨"DTSTART", some "XXXXXXXX", none⟩],
         [⟨"SUMMARY", some "second event", none⟩]] = .err := by
  decide

/-- Witness for C4's general conjunct at a concrete one-property VEVENT. -/
theorem claim_C4_witness :
    ([] : List EventP) = [] ∧
      ({ EventP.default with summary := some "s" } : EventP).start = EventP.default.start ∧
      ({ EventP.default with summary := some "s" } : EventP).end_ = EventP.default.end_ :=
  ((claim_C4.1 tzdb nyTz (fun _ => true) [] EventP.default none
      [⟨"SUMMARY", some "s", none⟩] (by simp)).1)
    [] { EventP.default with summary := some "s" } (by rfl)

/-- C10: an `RRULE` property processed while no `DTSTART` anchor is pending
panics (`dtstart.clone().unwrap()` of `None`) — it neither errors nor skips
the rule; consequently a property list containing an `RRULE` with no
earlier `DTSTART` can never process successfully, so every successful parse
implies each `RRULE` had a preceding `DTSTART`. -/
theorem claim_C10 :
    (∀ (db : String → Option Tz) (localTz : Tz) (g : String → Bool)
      (evs : List EventP) (ev : EventP) (v : Option String)
      (params : Option (List (String × List String))) (rest : List IcsProp),
      processProps db localTz g evs ev none (⟨"RRULE", v, params⟩ :: rest) = .panic) ∧
    (∀ (db : String → Option Tz) (localTz : Tz) (g : String → Bool)
      (evs : List EventP) (ev : EventP) (v : Option String)
      (params : Option (List (String × List String))) (pre post : List IcsProp),
      (∀ p ∈ pre, p.name ≠ "DTSTART") →
      ∀ result, processProps db localTz g evs ev none
          (pre ++ ⟨"RRULE", v, params⟩ :: post) ≠ .ok result) ∧
    parse_icsM tzdb nyTz (fun _ => true) [[⟨"RRULE", some "FREQ=DAILY", none⟩]]
      = .panic := by
  refine ⟨?_, ?_, by decide⟩
  · intro db localTz g evs ev v params rest
    rfl
  · intro db localTz g evs ev v params pre post hpre result
    induction pre generalizing evs ev with
    | nil =>
      intro h
      rw [List.nil_append] at h
      rw [show processProps db localTz g evs ev none (⟨"RRULE", v, params⟩ :: post)
          = .panic from rfl] at h
      cases h
    | cons p pre ih =>
      intro h
      rw [List.cons_append] at h
      unfold processProps at h
      obtain ⟨st, hst, h⟩ := res_bind_ok _ _ _ h
      have hds := processProp_keeps_dtstart db localTz g evs ev none p st
        (hpre p (by simp)) hst
      rw [hds] at h
      exact ih st.1 st.2.1 (fun q hq => hpre q (by simp [hq])) h

/-- Witness for C10's general no-success conjunct at a concrete property
list with a summary before the anchorless `RRULE`. -/
theorem claim_C10_witness :
    processProps tzdb nyTz (fun _ => true) [] EventP.default none
        ([⟨"SUMMARY", some "x", none⟩] ++ ⟨"RRULE", some "FREQ=DAILY", none⟩ :: [])
      ≠ .ok ([], EventP.default) :=
  claim_C10.2.1 tzdb nyTz (fun _ => true) [] EventP.default (some "FREQ=DAILY") none
    [⟨"SUMMARY", some "x", none⟩] [] (by simp) ([], EventP.default)
